import Mathlib

/-!
Shallow embedding of the device-file-access core of Clementine's AFC
transfer code (`src/devices/afctransfer.h` together with the
`iMobileDeviceConnection` implementation): the member functions
`ReadDirectory`, `GetFileInfo`, `Exists` and `GetUnusedFilename`, modelled
over an abstract device channel.

Modelling conventions:
* The libimobiledevice calls `afc_read_directory` and `afc_get_file_info`
  are the only primitive channel operations the embedded functions use.
  They are modelled as two oracles on a `Channel`; `none` models a call
  that returned an error code or a null list.
* `QString` is modelled as Lean `String`; a null `QString` result is
  modelled as `none : Option String` (the code only ever distinguishes
  null from non-null via `isNull`, and equality with non-empty literals,
  which a null string never satisfies).
* `QDir::Filters` is an `int`-backed flag set; it is modelled as a `Nat`
  holding the 32-bit two's-complement bit pattern, so `QDir::NoFilter`
  (`-1`) is `0xFFFFFFFF`.
* The two unbounded loops of `GetUnusedFilename` (bucket counting and
  candidate generation) receive explicit fuel; running out of fuel is the
  `outOfFuel` result and models a loop that has not yet terminated.
  `qrand()` is modelled as a stream `rand : Nat → Nat` of the successive
  non-negative values the global generator returns.
-/

namespace Afc

/-- One AFC device channel: `readDirectoryRaw` models `afc_read_directory`
(`none` = error or null list), `fileInfoRaw` models `afc_get_file_info`
(`none` = error or null list; `some l` is the flat alternating
key/value string list the protocol returns). -/
structure Channel where
  readDirectoryRaw : String → Option (List String)
  fileInfoRaw : String → Option (List String)

/-- Scan of the alternating key/value list performed by the loop in
`GetFileInfo`: `last_key` toggles between a key and null, and `ret` is
overwritten by the value of every pair whose key matches, so the value of
the last matching pair wins; a trailing lone key is ignored. `none`
models the null `QString` that `ret` keeps when no pair matches. -/
def findPairVal (key : String) : List String → Option String
  | k :: v :: rest =>
    match findPairVal key rest with
    | some r => some r
    | none => if k == key then some v else none
  | _ => none

/-- Embedding of `iMobileDeviceConnection::GetFileInfo(path, key)`: query
`afc_get_file_info` and scan the pair list; a failed query and a missing
key both yield the null string (`none`). -/
def GetFileInfo (c : Channel) (path key : String) : Option String :=
  match c.fileInfoRaw path with
  | none => none
  | some l => findPairVal key l

/-- Embedding of `iMobileDeviceConnection::Exists(path)`:
`!GetFileInfo(path, "st_ifmt").isNull()`.  (Named `ExistsPath` because
`Exists` is taken by the existential quantifier.) -/
def ExistsPath (c : Channel) (path : String) : Bool :=
  (GetFileInfo c path "st_ifmt").isSome

/-- Qt 4 `QDir::Dirs` flag bit. -/
def QDirDirs : Nat := 0x001

/-- Qt 4 `QDir::Files` flag bit. -/
def QDirFiles : Nat := 0x002

/-- Qt 4 `QDir::NoSymLinks` flag bit. -/
def QDirNoSymLinks : Nat := 0x008

/-- Qt 4 `QDir::Hidden` flag bit. -/
def QDirHidden : Nat := 0x100

/-- Qt 4 `QDir::NoDotAndDotDot` flag bit. -/
def QDirNoDotAndDotDot : Nat := 0x1000

/-- Qt 4 `QDir::NoFilter` (`-1` as a 32-bit pattern). -/
def QDirNoFilter : Nat := 0xFFFFFFFF

/-- QString::startsWith(".") for a single-character pattern: the first
character is '.'. -/
def startsWithDot (s : String) : Bool :=
  match s.data with
  | c :: _ => c == '.'
  | [] => false

/-- Loop body of `ReadDirectory` for the filtered (non-`NoFilter`) case:
drop `.`/`..` under `NoDotAndDotDot`; drop names starting with a dot
unless `Hidden` is set; otherwise query `st_ifmt` once and keep the name
iff its type token is admitted by the `Files`/`Dirs`/`NoSymLinks` bits. -/
def keepEntry (c : Channel) (path : String) (filters : Nat)
    (filename : String) : Bool :=
  if ((filters &&& QDirNoDotAndDotDot) != 0) &&
      (filename == "." || filename == "..") then false
  else if ((filters &&& QDirHidden) == 0) && startsWithDot filename then
    false
  else
    let filetype := GetFileInfo c (path ++ "/" ++ filename) "st_ifmt"
    (filetype == some "S_IFREG" && ((filters &&& QDirFiles) != 0)) ||
    (filetype == some "S_IFDIR" && ((filters &&& QDirDirs) != 0)) ||
    (filetype == some "S_IFLNK" && ((filters &&& QDirNoSymLinks) == 0))

/-- Embedding of `iMobileDeviceConnection::ReadDirectory(path, filters)`:
on channel failure return the empty list; otherwise keep every raw name
when `filters == QDir::NoFilter`, and apply `keepEntry` per name
otherwise, preserving the device's listing order. -/
def ReadDirectory (c : Channel) (path : String) (filters : Nat) :
    List String :=
  match c.readDirectoryRaw path with
  | none => []
  | some list =>
    list.filter (fun filename =>
      if filters == QDirNoFilter then true
      else keepEntry c path filters filename)

/-- sprintf zero padding: `%0wd` for a non-negative value renders the
decimal digits left-padded with '0' to width `w` (wider values keep all
their digits). -/
def zeroPad (w n : Nat) : String :=
  let s := toString n
  String.mk (List.replicate (w - s.length) '0' ++ s.data)

/-- Bucket directory path `sprintf("/iTunes_Control/Music/F%02d", n)`. -/
def musicDir (n : Nat) : String :=
  "/iTunes_Control/Music/F" ++ zeroPad 2 n

/-- Bucket-counting loop of `GetUnusedFilename`: starting at index `i`,
probe `musicDir i`, `musicDir (i+1)`, ... until `Exists` is false and
return that index (the bucket count when started at 0); `none` when the
fuel runs out before the loop exits. -/
def countMusicDirs (c : Channel) : Nat → Nat → Option Nat
  | 0, _ => none
  | fuel + 1, i =>
    if ExistsPath c (musicDir i) then countMusicDirs c fuel (i + 1)
    else some i

/-- Per-character lowering as done by `QString::toLower` on ASCII letters:
'A'..'Z' (code points 65..90) map 32 code points up, everything else is
unchanged. -/
def qcharToLower (ch : Char) : Char :=
  if 65 ≤ ch.toNat ∧ ch.toNat ≤ 90 then Char.ofNat (ch.toNat + 32) else ch

/-- QString::toLower modelled as per-character lowering. -/
def qtoLower (s : String) : String :=
  String.mk (s.data.map qcharToLower)

/-- Character-level splitting on a separator, as `QString::section` with
default flags sections a string: empty sections are kept, so the result
is always non-empty and concatenating it with separators restores the
input. -/
def splitOnChar (c : Char) : List Char → List (List Char)
  | [] => [[]]
  | x :: xs =>
    let r := splitOnChar c xs
    if x = c then [] :: r
    else
      match r with
      | [] => [[x]]
      | h :: t => (x :: h) :: t

/-- Last element of a list of character lists (empty for the empty
list); used to select section -1 of a sectioned string. -/
def lastPiece : List (List Char) → List Char
  | [] => []
  | [a] => a
  | _ :: b :: t => lastPiece (b :: t)

/-- QString::section(sep, -1, -1): the last separator-delimited section of
the string (the whole string when the separator does not occur). -/
def qsectionLast (sep : Char) (s : String) : String :=
  String.mk (lastPiece (splitOnChar sep s.data))

/-- Extension chosen by `GetUnusedFilename` from the source filename:
`filename.section('.', -1, -1).toLower()`, defaulting to "mp3" when
empty. -/
def chosenExtension (srcFilename : String) : String :=
  let extension := qtoLower (qsectionLast '.' srcFilename)
  if extension == "" then "mp3" else extension

/-- Result of `GetUnusedFilename`. The C++ returns a null `QString` on
both failure paths; the two paths are distinguished here by which early
`return` (with its distinct warning message) fired. `outOfFuel` is the
fuel artifact modelling a loop still running. -/
inductive AllocResult where
  | ok (path : String)
  | noBuckets
  | bucketVanished
  | outOfFuel
deriving DecidableEq

/-- kRandMax constant of the candidate loop (999999). -/
def kRandMax : Nat := 999999

/-- Candidate filename for loop iteration drawing `r` from `qrand()`:
`sprintf("libgpod%06d", r % kRandMax)` plus "." and the extension. -/
def candidateName (r : Nat) (extension : String) : String :=
  "libgpod" ++ zeroPad 6 (r % kRandMax) ++ "." ++ extension

/-- Candidate loop of `GetUnusedFilename`: at iteration `k` draw
`rand k`, build the candidate, and exit with `dir + "/" + filename` as
soon as `Exists` on that path is false. -/
def findUnused (c : Channel) (dir extension : String) (rand : Nat → Nat) :
    Nat → Nat → AllocResult
  | 0, _ => .outOfFuel
  | fuel + 1, k =>
    let filename := candidateName (rand k) extension
    if ExistsPath c (dir ++ "/" ++ filename) then
      findUnused c dir extension rand fuel (k + 1)
    else .ok (dir ++ "/" ++ filename)

/-- Embedding of `iMobileDeviceConnection::GetUnusedFilename`: count the
`F%02d` bucket directories (`fuel1` fuel); fail (`noBuckets`) when the
count is zero; pick bucket `qrand() % total` and fail (`bucketVanished`)
when it no longer exists; choose the extension from the source filename;
then run the candidate loop (`fuel2` fuel) on the remaining random
stream. `rand 0` is the first `qrand()` call, `rand (k+1)` the draw of
candidate-loop iteration `k`. -/
def GetUnusedFilename (c : Channel) (srcFilename : String)
    (rand : Nat → Nat) (fuel1 fuel2 : Nat) : AllocResult :=
  match countMusicDirs c fuel1 0 with
  | none => .outOfFuel
  | some total =>
    if total = 0 then .noBuckets
    else
      let dirNum := rand 0 % total
      let dir := musicDir dirNum
      if !(ExistsPath c dir) then .bucketVanished
      else
        findUnused c dir (chosenExtension srcFilename)
          (fun k => rand (k + 1)) fuel2 0

/-- Four-way entry kind of the spec's data model. -/
inductive EntryKind where
  | file
  | directory
  | symlink
  | unknown
deriving DecidableEq

/-- Modelled from the spec's classification contract (§4.1): map the
device's raw `st_ifmt` type token to the four-way kind, with absence or
error mapped to `unknown`. -/
def kindOfToken : Option String → EntryKind
  | some "S_IFREG" => .file
  | some "S_IFDIR" => .directory
  | some "S_IFLNK" => .symlink
  | _ => .unknown

/-- ListingFilter of the spec's data model: hidden/dot-entry switches and
the kind mask over file/directory/symlink. -/
structure ListingFilter where
  includeHidden : Bool
  includeDotEntries : Bool
  maskFile : Bool
  maskDir : Bool
  maskSymlink : Bool

/-- Membership of a kind in the filter's kind mask; `unknown` is in no
mask. -/
def inKindMask (F : ListingFilter) : EntryKind → Bool
  | .file => F.maskFile
  | .directory => F.maskDir
  | .symlink => F.maskSymlink
  | .unknown => false

/-- Modelled from the spec's per-name filtering policy (§4.1, claim C3),
in the spec's order: drop dot-entries unless included, drop hidden names
unless included, classify by one metadata query, keep iff the kind is in
the mask. -/
def specKeep (c : Channel) (path : String) (F : ListingFilter)
    (name : String) : Bool :=
  if (name == "." || name == "..") && !F.includeDotEntries then false
  else if startsWithDot name && !F.includeHidden then false
  else inKindMask F (kindOfToken (GetFileInfo c (path ++ "/" ++ name) "st_ifmt"))

/-- Modelled from the spec: `listDirectory` for a non-trivial filter
returns the raw names in device order, filtered by the per-name
policy. -/
def listDirectorySpec (c : Channel) (path : String) (F : ListingFilter) :
    List String :=
  match c.readDirectoryRaw path with
  | none => []
  | some l => l.filter (specKeep c path F)

/-- Spec-level filter corresponding to a `QDir::Filters` bit pattern. -/
def filterOfBits (filters : Nat) : ListingFilter :=
  { includeHidden := (filters &&& QDirHidden) != 0
    includeDotEntries := (filters &&& QDirNoDotAndDotDot) == 0
    maskFile := (filters &&& QDirFiles) != 0
    maskDir := (filters &&& QDirDirs) != 0
    maskSymlink := (filters &&& QDirNoSymLinks) == 0 }

/-- Presence of a key in the alternating key/value list: some pair (a key
at an even offset together with the value that follows it) carries the
key; a trailing lone key does not count, matching the scan loop of
`GetFileInfo`. -/
def pairsHaveKey (key : String) : List String → Bool
  | k :: _ :: rest => k == key || pairsHaveKey key rest
  | _ => false

/-- Raw file-info oracle of a small example device state: one bucket
directory, and a directory `/d` holding a regular file, a subdirectory, a
symlink, and an entry whose metadata carries no `st_ifmt` key. -/
def demoFileInfo : String → Option (List String)
  | "/iTunes_Control/Music/F00" => some ["st_ifmt", "S_IFDIR"]
  | "/d/a.mp3" => some ["st_ifmt", "S_IFREG"]
  | "/d/sub" => some ["st_ifmt", "S_IFDIR"]
  | "/d/link" => some ["st_ifmt", "S_IFLNK"]
  | "/d/weird" => some ["st_size", "10"]
  | _ => none

/-- Example channel over `demoFileInfo`; only `/d` lists successfully. -/
def demoChannel : Channel :=
  { readDirectoryRaw := fun p =>
      if p == "/d" then
        some [".", "..", ".hidden", "a.mp3", "sub", "link", "weird", "gone"]
      else none
    fileInfoRaw := demoFileInfo }

/-- Channel of a device on which every operation fails. -/
def emptyChannel : Channel :=
  { readDirectoryRaw := fun _ => none
    fileInfoRaw := fun _ => none }

/-! Helper lemmas about the embedded definitions. -/

/-- Candidate loop: a returned path is one the loop's own final `Exists`
probe reported absent. -/
theorem findUnused_ok_not_exists (c : Channel) (dir extension : String)
    (rand : Nat → Nat) (fuel : Nat) :
    ∀ k p, findUnused c dir extension rand fuel k = .ok p →
      ExistsPath c p = false := by
  induction fuel with
  | zero => intro k p h; simp [findUnused] at h
  | succ n ih =>
    intro k p h
    unfold findUnused at h
    by_cases hex :
        ExistsPath c (dir ++ "/" ++ candidateName (rand k) extension) = true
    · rw [if_pos hex] at h
      exact ih (k + 1) p h
    · rw [if_neg hex] at h
      cases h
      simpa using hex

/-- Candidate loop: a returned path is the bucket directory joined with a
candidate name built from one of the loop's random draws. -/
theorem findUnused_ok_shape (c : Channel) (dir extension : String)
    (rand : Nat → Nat) (fuel : Nat) :
    ∀ k p, findUnused c dir extension rand fuel k = .ok p →
      ∃ j, p = dir ++ "/" ++ candidateName (rand j) extension := by
  induction fuel with
  | zero => intro k p h; simp [findUnused] at h
  | succ n ih =>
    intro k p h
    unfold findUnused at h
    by_cases hex :
        ExistsPath c (dir ++ "/" ++ candidateName (rand k) extension) = true
    · rw [if_pos hex] at h
      exact ih (k + 1) p h
    · rw [if_neg hex] at h
      cases h
      exact ⟨k, rfl⟩

/-- Candidate loop: its result is never the vanished-bucket error. -/
theorem findUnused_ne_bucketVanished (c : Channel) (dir extension : String)
    (rand : Nat → Nat) (fuel : Nat) :
    ∀ k, findUnused c dir extension rand fuel k ≠ .bucketVanished := by
  induction fuel with
  | zero => intro k h; simp [findUnused] at h
  | succ n ih =>
    intro k h
    unfold findUnused at h
    by_cases hex :
        ExistsPath c (dir ++ "/" ++ candidateName (rand k) extension) = true
    · rw [if_pos hex] at h
      exact ih (k + 1) h
    · rw [if_neg hex] at h
      cases h

/-- Bucket counting: when the loop started at `i` reports the count `N`,
every bucket index in `[i, N)` passed its `Exists` probe. -/
theorem countMusicDirs_all_exist (c : Channel) (fuel : Nat) :
    ∀ i N, countMusicDirs c fuel i = some N →
      ∀ j, i ≤ j → j < N → ExistsPath c (musicDir j) = true := by
  induction fuel with
  | zero => intro i N h; simp [countMusicDirs] at h
  | succ n ih =>
    intro i N h j hij hjN
    unfold countMusicDirs at h
    by_cases hex : ExistsPath c (musicDir i) = true
    · rw [if_pos hex] at h
      rcases Nat.eq_or_lt_of_le hij with rfl | hlt
      · exact hex
      · exact ih (i + 1) N h j hlt hjN
    · rw [if_neg hex] at h
      cases h
      omega

/-- The pair scan finds a value exactly when the list carries the key. -/
theorem findPairVal_isSome (key : String) :
    ∀ l, (findPairVal key l).isSome = pairsHaveKey key l
  | [] => rfl
  | [_] => rfl
  | k :: v :: rest => by
    have ih := findPairVal_isSome key rest
    unfold findPairVal pairsHaveKey
    cases hr : findPairVal key rest with
    | some r =>
      rw [hr] at ih
      simp [← ih]
    | none =>
      rw [hr] at ih
      rw [← ih]
      cases hk : k == key <;> simp [hk]

/-- The kind-mask disjunction of `keepEntry` agrees with classifying the
token and testing membership in the spec-level kind mask. -/
theorem keepKind_eq_inKindMask (filters : Nat) (ft : Option String) :
    ((ft == some "S_IFREG" && ((filters &&& QDirFiles) != 0)) ||
     (ft == some "S_IFDIR" && ((filters &&& QDirDirs) != 0)) ||
     (ft == some "S_IFLNK" && ((filters &&& QDirNoSymLinks) == 0)))
    = inKindMask (filterOfBits filters) (kindOfToken ft) := by
  cases ft with
  | none => simp [kindOfToken, inKindMask]
  | some s =>
    by_cases h1 : s = "S_IFREG"
    · subst h1; simp [kindOfToken, inKindMask, filterOfBits]
    · by_cases h2 : s = "S_IFDIR"
      · subst h2; simp [kindOfToken, inKindMask, filterOfBits]
      · by_cases h3 : s = "S_IFLNK"
        · subst h3; simp [kindOfToken, inKindMask, filterOfBits]
        · simp [kindOfToken, inKindMask, h1, h2, h3]

/-- Per-name agreement of the implementation's filtering with the spec's
policy, through the bit-pattern-to-ListingFilter translation. -/
theorem keepEntry_eq_specKeep (c : Channel) (path : String) (filters : Nat)
    (name : String) :
    keepEntry c path filters name
      = specKeep c path (filterOfBits filters) name := by
  unfold keepEntry specKeep
  simp only []
  rw [keepKind_eq_inKindMask]
  simp only [filterOfBits, bne, Bool.not_not]
  rw [Bool.and_comm (!((filters &&& QDirNoDotAndDotDot) == 0))
      (name == "." || name == ".."),
    Bool.and_comm ((filters &&& QDirHidden) == 0) (startsWithDot name)]

/-! Lemmas about character-list splitting, supporting the extension
claim. -/

/-- Unfolding equation of `splitOnChar` on a cons cell. -/
theorem splitOnChar_cons (c x : Char) (xs : List Char) :
    splitOnChar c (x :: xs) =
      if x = c then [] :: splitOnChar c xs
      else
        match splitOnChar c xs with
        | [] => [[x]]
        | h :: t => (x :: h) :: t := rfl

/-- Splitting never produces the empty list of pieces. -/
theorem splitOnChar_ne_nil (c : Char) : ∀ l, splitOnChar c l ≠ [] := by
  intro l
  cases l with
  | nil => simp [splitOnChar]
  | cons x xs =>
    unfold splitOnChar
    by_cases hx : x = c
    · rw [if_pos hx]; simp
    · rw [if_neg hx]
      cases splitOnChar c xs <;> simp

/-- When the separator occurs in the list there are at least two
pieces. -/
theorem splitOnChar_length_ge_two (c : Char) :
    ∀ l, c ∈ l → 2 ≤ (splitOnChar c l).length := by
  intro l
  induction l with
  | nil => intro h; cases h
  | cons x xs ih =>
    intro hmem
    unfold splitOnChar
    by_cases hx : x = c
    · rw [if_pos hx]
      have h1 := splitOnChar_ne_nil c xs
      cases hsp : splitOnChar c xs with
      | nil => exact absurd hsp h1
      | cons a t => simp
    · rw [if_neg hx]
      have hxs : c ∈ xs := by
        cases hmem with
        | head => exact absurd rfl hx
        | tail _ h => exact h
      have h2 := ih hxs
      cases hsp : splitOnChar c xs with
      | nil => exact absurd hsp (splitOnChar_ne_nil c xs)
      | cons a t => rw [hsp] at h2; simpa using h2

/-- lastPiece ignores the head when the tail is non-empty. -/
theorem lastPiece_cons_of_ne_nil (a : List Char) :
    ∀ t, t ≠ [] → lastPiece (a :: t) = lastPiece t := by
  intro t ht
  cases t with
  | nil => exact absurd rfl ht
  | cons b u => rfl

/-- Splitting a separator-free list yields the single piece that is the
list itself. -/
theorem splitOnChar_of_not_mem (c : Char) :
    ∀ l, c ∉ l → splitOnChar c l = [l] := by
  intro l
  induction l with
  | nil => intro _; rfl
  | cons x xs ih =>
    intro hmem
    unfold splitOnChar
    have hx : ¬x = c := fun h => hmem (h ▸ List.mem_cons_self x xs)
    rw [if_neg hx, ih (fun h => hmem (List.mem_cons_of_mem x h))]

/-- The last piece of a split is free of the separator. -/
theorem not_mem_lastPiece_splitOnChar (c : Char) :
    ∀ l, c ∉ lastPiece (splitOnChar c l) := by
  intro l
  induction l with
  | nil => simp [splitOnChar, lastPiece]
  | cons x xs ih =>
    unfold splitOnChar
    by_cases hx : x = c
    · rw [if_pos hx]
      rw [lastPiece_cons_of_ne_nil _ _ (splitOnChar_ne_nil c xs)]
      exact ih
    · rw [if_neg hx]
      cases hsp : splitOnChar c xs with
      | nil => exact absurd hsp (splitOnChar_ne_nil c xs)
      | cons h t =>
        rw [hsp] at ih
        cases t with
        | nil =>
          simp only [lastPiece] at ih ⊢
          intro hc
          cases hc with
          | head => exact hx rfl
          | tail _ hc2 => exact ih hc2
        | cons b u =>
          rw [lastPiece_cons_of_ne_nil _ _ (by simp)]
          rw [lastPiece_cons_of_ne_nil _ _ (by simp)] at ih
          exact ih

/-- Dropping a prefix before a list that still contains the separator
does not change the last piece. -/
theorem lastPiece_splitOnChar_append (c : Char) :
    ∀ a b, c ∈ b →
      lastPiece (splitOnChar c (a ++ b)) = lastPiece (splitOnChar c b) := by
  intro a
  induction a with
  | nil => intro b _; rfl
  | cons x xs ih =>
    intro b hb
    rw [List.cons_append, splitOnChar_cons]
    by_cases hx : x = c
    · rw [if_pos hx]
      rw [lastPiece_cons_of_ne_nil _ _ (splitOnChar_ne_nil c (xs ++ b))]
      exact ih b hb
    · rw [if_neg hx]
      have hlen : 2 ≤ (splitOnChar c (xs ++ b)).length :=
        splitOnChar_length_ge_two c (xs ++ b) (List.mem_append_right xs hb)
      cases hsp : splitOnChar c (xs ++ b) with
      | nil => exact absurd hsp (splitOnChar_ne_nil c (xs ++ b))
      | cons h t =>
        rw [hsp] at hlen
        have ht : t ≠ [] := by
          cases t with
          | nil => simp at hlen
          | cons b2 u => simp
        rw [lastPiece_cons_of_ne_nil _ _ ht]
        have := ih b hb
        rw [hsp, lastPiece_cons_of_ne_nil _ _ ht] at this
        exact this

/-- ASCII lowering maps no character to the dot. -/
theorem qcharToLower_ne_dot (ch : Char) (h : ch ≠ '.') :
    qcharToLower ch ≠ '.' := by
  unfold qcharToLower
  split
  · rename_i h2
    obtain ⟨h65, h90⟩ := h2
    generalize ch.toNat = m at h65 h90
    interval_cases m <;> decide
  · exact h

/-- The data of a string rebuilt from its own data is itself. -/
theorem mk_data (s : String) : String.mk s.data = s := by
  cases s; rfl

/-- Last section of a string whose data is a prefix, a dot, and a
dot-free tail: the tail. -/
theorem qsectionLast_of_data_shape (s ext : String) (a : List Char)
    (hs : s.data = a ++ '.' :: ext.data) (hext : '.' ∉ ext.data) :
    qsectionLast '.' s = ext := by
  unfold qsectionLast
  rw [hs, lastPiece_splitOnChar_append '.' a _ (List.mem_cons_self _ _),
    splitOnChar_cons, if_pos rfl, splitOnChar_of_not_mem '.' ext.data hext]
  exact mk_data ext

/-- The extension `GetUnusedFilename` settles on never contains a dot. -/
theorem not_dot_mem_chosenExtension (src : String) :
    '.' ∉ (chosenExtension src).data := by
  unfold chosenExtension
  simp only []
  split
  · decide
  · intro hmem
    unfold qtoLower at hmem
    have hmem2 : '.' ∈ (qsectionLast '.' src).data.map qcharToLower := hmem
    obtain ⟨ch, hch, heq⟩ := List.mem_map.mp hmem2
    have hch2 : ch ∈ lastPiece (splitOnChar '.' src.data) := hch
    have hne : ch ≠ '.' := fun h =>
      not_mem_lastPiece_splitOnChar '.' src.data (h ▸ hch2)
    exact qcharToLower_ne_dot ch hne heq

/-! Claim theorems. -/

/-- Claim C1: whenever `GetUnusedFilename` returns a path (rather than
failing or running on), `Exists` on that path is false — over a channel
whose state is fixed for the whole call, the returned path is exactly the
one whose final `Exists` probe reported it absent. -/
theorem GetUnusedFilename_ok_not_exists (c : Channel) (src : String)
    (rand : Nat → Nat) (fuel1 fuel2 : Nat) (p : String)
    (h : GetUnusedFilename c src rand fuel1 fuel2 = .ok p) :
    ExistsPath c p = false := by
  unfold GetUnusedFilename at h
  split at h
  · cases h
  · split at h
    · cases h
    · simp only [] at h
      split at h
      · cases h
      · exact findUnused_ok_not_exists c _ _ _ fuel2 0 p h

/-- Claim C5: when even the first bucket directory
`/iTunes_Control/Music/F00` does not exist, `GetUnusedFilename` fails
with the no-buckets error, for every random stream and every candidate
fuel (in particular fuel 0: no candidate is ever generated or probed). -/
theorem GetUnusedFilename_noBuckets (c : Channel) (src : String)
    (h : ExistsPath c "/iTunes_Control/Music/F00" = false) :
    ∀ rand fuel1 fuel2,
      GetUnusedFilename c src rand (fuel1 + 1) fuel2 = .noBuckets := by
  intro rand fuel1 fuel2
  have hm : musicDir 0 = "/iTunes_Control/Music/F00" := rfl
  have hc : countMusicDirs c (fuel1 + 1) 0 = some 0 := by
    unfold countMusicDirs
    rw [hm, h]
    simp
  unfold GetUnusedFilename
  rw [hc]
  simp

/-- Claim C6: with `N > 0` buckets counted, the chosen bucket index is
`qrand() % N`, which lies in `[0, N)`; the choice is re-checked with
`Exists`, and the vanished-bucket error is returned exactly when that
re-check reports the bucket absent (with an unchanged channel it never
does, since the counting loop already saw the bucket). -/
theorem GetUnusedFilename_bucketVanished_iff (c : Channel) (src : String)
    (rand : Nat → Nat) (fuel1 fuel2 N : Nat)
    (hc : countMusicDirs c fuel1 0 = some N) (hN : 0 < N) :
    rand 0 % N < N ∧
    ExistsPath c (musicDir (rand 0 % N)) = true ∧
    (GetUnusedFilename c src rand fuel1 fuel2 = .bucketVanished ↔
      ExistsPath c (musicDir (rand 0 % N)) = false) := by
  have hmod : rand 0 % N < N := Nat.mod_lt _ hN
  have hex : ExistsPath c (musicDir (rand 0 % N)) = true :=
    countMusicDirs_all_exist c fuel1 0 N hc _ (Nat.zero_le _) hmod
  refine ⟨hmod, hex, ?_, ?_⟩
  · intro habs
    unfold GetUnusedFilename at habs
    split at habs
    · cases habs
    · rename_i total heq
      rw [hc] at heq
      cases heq
      split at habs
      · cases habs
      · simp only [] at habs
        split at habs
        · rename_i hbad
          rw [hex] at hbad
          simp at hbad
        · exact absurd habs (findUnused_ne_bucketVanished c _ _ _ fuel2 0)
  · intro hfalse
    rw [hex] at hfalse
    cases hfalse

/-- Claim C7: every path `GetUnusedFilename` returns ends in a dot
followed by the chosen extension, and that extension — also the last
dot-separated section of the whole returned path — is the lower-cased
last dot-separated section of the source filename when non-empty, and
"mp3" otherwise. -/
theorem GetUnusedFilename_extension (c : Channel) (src : String)
    (rand : Nat → Nat) (fuel1 fuel2 : Nat) (p : String)
    (h : GetUnusedFilename c src rand fuel1 fuel2 = .ok p) :
    qsectionLast '.' p = chosenExtension src := by
  unfold GetUnusedFilename at h
  split at h
  · cases h
  · rename_i total heq
    split at h
    · cases h
    · simp only [] at h
      split at h
      · cases h
      · obtain ⟨j, rfl⟩ := findUnused_ok_shape c _ _ _ fuel2 0 p h
        unfold candidateName
        refine qsectionLast_of_data_shape _ _
          ((musicDir (rand 0 % total)).data ++ ['/'] ++ "libgpod".data ++
            (zeroPad 6 (rand (j + 1) % kRandMax)).data)
          ?_ (not_dot_mem_chosenExtension src)
        simp [String.data_append, List.append_assoc]

/-- Claim C2: with a kind mask admitting only directories (`Files` bit
clear, `Dirs` bit set, `NoSymLinks` bit set — such a pattern is never
`NoFilter`), `ReadDirectory` returns a subsequence of the unfiltered
listing, and every retained name's direct `st_ifmt` query yields the
directory token. -/
theorem ReadDirectory_dirsOnly (c : Channel) (path : String) (filters : Nat)
    (hf : filters &&& QDirFiles = 0) (hd : filters &&& QDirDirs ≠ 0)
    (hs : filters &&& QDirNoSymLinks ≠ 0) :
    List.Sublist (ReadDirectory c path filters)
      (ReadDirectory c path QDirNoFilter) ∧
    ∀ name ∈ ReadDirectory c path filters,
      GetFileInfo c (path ++ "/" ++ name) "st_ifmt" = some "S_IFDIR" := by
  have hnf : filters ≠ QDirNoFilter := by
    intro heq
    rw [heq] at hf
    exact absurd hf (by decide)
  constructor
  · unfold ReadDirectory
    cases c.readDirectoryRaw path with
    | none => simp
    | some l =>
      simp only []
      have hr : (l.filter fun filename =>
          if QDirNoFilter == QDirNoFilter then true
          else keepEntry c path QDirNoFilter filename) = l := by
        simp
      rw [hr]
      exact List.filter_sublist l
  · intro name hmem
    unfold ReadDirectory at hmem
    split at hmem
    · cases hmem
    · have hp := (List.mem_filter.mp hmem).2
      rw [if_neg (by simp [hnf])] at hp
      unfold keepEntry at hp
      split at hp
      · cases hp
      · split at hp
        · cases hp
        · simp only [] at hp
          simp [hf, hd, hs] at hp
          exact hp

/-- Claim C3: for every non-`NoFilter` filter, `ReadDirectory` equals the
spec's `listDirectory` policy — per raw name and in device order: drop
dot-entries unless included, drop hidden names unless included, classify
by one `st_ifmt` query, and keep exactly the names whose kind is in the
kind mask. -/
theorem ReadDirectory_eq_listDirectorySpec (c : Channel) (path : String)
    (filters : Nat) (h : filters ≠ QDirNoFilter) :
    ReadDirectory c path filters
      = listDirectorySpec c path (filterOfBits filters) := by
  unfold ReadDirectory listDirectorySpec
  cases c.readDirectoryRaw path with
  | none => rfl
  | some l =>
    simp only []
    refine List.filter_congr ?_
    intro x _
    rw [if_neg (by simp [h])]
    exact keepEntry_eq_specKeep c path filters x

/-- Claim C4: with `QDir::NoFilter`, `ReadDirectory` returns the raw
names exactly as the channel reported them, in order and unmodified, and
the result is the same whatever the metadata oracle answers — no
per-entry `GetFileInfo` query can influence it. -/
theorem ReadDirectory_noFilter_raw (c : Channel) (path : String)
    (l : List String) (h : c.readDirectoryRaw path = some l) :
    ReadDirectory c path QDirNoFilter = l ∧
    ∀ g, ReadDirectory
        { readDirectoryRaw := c.readDirectoryRaw, fileInfoRaw := g }
        path QDirNoFilter = l := by
  constructor
  · unfold ReadDirectory
    rw [h]
    simp
  · intro g
    unfold ReadDirectory
    simp only []
    rw [h]
    simp

/-- Claim C8: a name whose `st_ifmt` metadata query fails or carries no
`st_ifmt` value classifies as `unknown` (no error), and every filtered
listing excludes it. -/
theorem ReadDirectory_skips_unknown (c : Channel) (path name : String)
    (filters : Nat)
    (hft : GetFileInfo c (path ++ "/" ++ name) "st_ifmt" = none)
    (hnf : filters ≠ QDirNoFilter) :
    kindOfToken (GetFileInfo c (path ++ "/" ++ name) "st_ifmt")
      = .unknown ∧
    name ∉ ReadDirectory c path filters := by
  constructor
  · rw [hft]
    rfl
  · intro hmem
    unfold ReadDirectory at hmem
    split at hmem
    · cases hmem
    · have hp := (List.mem_filter.mp hmem).2
      rw [if_neg (by simp [hnf])] at hp
      unfold keepEntry at hp
      split at hp
      · cases hp
      · split at hp
        · cases hp
        · simp only [] at hp
          rw [hft] at hp
          simp at hp

/-- Claim C9: `Exists` is true exactly when the raw metadata query
succeeds and the returned key/value list carries the `st_ifmt` key; a
successful query without `st_ifmt` therefore reports the path absent. -/
theorem ExistsPath_iff_hasKey (c : Channel) (path : String) :
    ExistsPath c path = true ↔
      ∃ l, c.fileInfoRaw path = some l ∧
        pairsHaveKey "st_ifmt" l = true := by
  unfold ExistsPath GetFileInfo
  cases hraw : c.fileInfoRaw path with
  | none => simp
  | some l =>
    simp only []
    rw [findPairVal_isSome]
    constructor
    · intro hk
      exact ⟨l, rfl, hk⟩
    · rintro ⟨l2, hl2, hk⟩
      cases hl2
      exact hk

/-- Claim C10: when the raw directory read fails, `ReadDirectory` returns
the empty list under every filter, and so is indistinguishable from a
successfully listed empty directory. -/
theorem ReadDirectory_failure_eq_empty (c : Channel) (path : String)
    (h : c.readDirectoryRaw path = none) :
    ∀ filters, ReadDirectory c path filters = [] ∧
      ∀ c2 : Channel, c2.readDirectoryRaw path = some [] →
        ReadDirectory c2 path filters = ReadDirectory c path filters := by
  intro filters
  have h1 : ReadDirectory c path filters = [] := by
    unfold ReadDirectory
    rw [h]
  refine ⟨h1, ?_⟩
  intro c2 h2
  unfold ReadDirectory
  rw [h, h2]
  rfl

/-! Witnesses instantiating the claim theorems on the example device
states. -/

/-- Witness for C1: on the example device the allocation succeeds and the
returned path indeed fails the `Exists` check. -/
theorem GetUnusedFilename_ok_not_exists_witness :
    ExistsPath demoChannel
      "/iTunes_Control/Music/F00/libgpod000000.mp3" = false :=
  GetUnusedFilename_ok_not_exists demoChannel "x.Mp3" (fun _ => 0) 2 1
    "/iTunes_Control/Music/F00/libgpod000000.mp3" (by decide)

/-- Witness for C2: with `Dirs ||| NoSymLinks ||| NoDotAndDotDot`
(0x1009 = 4105) the filtered listing of `/d` is a subsequence of the raw
one and its retained name `sub` checks out as a directory. -/
theorem ReadDirectory_dirsOnly_witness :
    List.Sublist (ReadDirectory demoChannel "/d" 4105)
      (ReadDirectory demoChannel "/d" QDirNoFilter) ∧
    GetFileInfo demoChannel ("/d" ++ "/" ++ "sub") "st_ifmt"
      = some "S_IFDIR" :=
  ⟨(ReadDirectory_dirsOnly demoChannel "/d" 4105 (by decide) (by decide)
      (by decide)).1,
   (ReadDirectory_dirsOnly demoChannel "/d" 4105 (by decide) (by decide)
      (by decide)).2 "sub" (by decide)⟩

/-- Witness for C3: the implementation listing and the spec-policy
listing agree on the example directory. -/
theorem ReadDirectory_eq_listDirectorySpec_witness :
    ReadDirectory demoChannel "/d" 4105
      = listDirectorySpec demoChannel "/d" (filterOfBits 4105) :=
  ReadDirectory_eq_listDirectorySpec demoChannel "/d" 4105 (by decide)

/-- Witness for C4: the unfiltered listing of `/d` is the raw listing,
dot-entries and hidden names included. -/
theorem ReadDirectory_noFilter_raw_witness :
    ReadDirectory demoChannel "/d" QDirNoFilter
      = [".", "..", ".hidden", "a.mp3", "sub", "link", "weird", "gone"] :=
  (ReadDirectory_noFilter_raw demoChannel "/d"
    [".", "..", ".hidden", "a.mp3", "sub", "link", "weird", "gone"]
    (by decide)).1

/-- Witness for C5: on a device with no buckets the allocation fails with
the no-buckets error. -/
theorem GetUnusedFilename_noBuckets_witness :
    GetUnusedFilename emptyChannel "song.ogg" (fun _ => 3) 1 5
      = .noBuckets :=
  GetUnusedFilename_noBuckets emptyChannel "song.ogg" (by decide)
    (fun _ => 3) 0 5

/-- Witness for C6: with one bucket counted on the example device the
chosen index is in range, its re-check succeeds, and the vanished-bucket
error is equivalent to that re-check failing. -/
theorem GetUnusedFilename_bucketVanished_iff_witness :
    0 % 1 < 1 ∧
    ExistsPath demoChannel (musicDir (0 % 1)) = true ∧
    (GetUnusedFilename demoChannel "a.b" (fun _ => 0) 2 1
        = .bucketVanished ↔
      ExistsPath demoChannel (musicDir (0 % 1)) = false) :=
  GetUnusedFilename_bucketVanished_iff demoChannel "a.b" (fun _ => 0) 2 1 1
    (by decide) (by decide)

/-- Witness for C7: the allocated path's extension is the lower-cased
extension of the source filename. -/
theorem GetUnusedFilename_extension_witness :
    qsectionLast '.' "/iTunes_Control/Music/F00/libgpod000000.mp3"
      = chosenExtension "x.Mp3" :=
  GetUnusedFilename_extension demoChannel "x.Mp3" (fun _ => 0) 2 1
    "/iTunes_Control/Music/F00/libgpod000000.mp3" (by decide)

/-- Witness for C8: the entry `weird`, whose metadata has no `st_ifmt`
key, classifies as unknown and is excluded from the filtered listing. -/
theorem ReadDirectory_skips_unknown_witness :
    kindOfToken (GetFileInfo demoChannel ("/d" ++ "/" ++ "weird") "st_ifmt")
      = EntryKind.unknown ∧
    "weird" ∉ ReadDirectory demoChannel "/d" 4105 :=
  ReadDirectory_skips_unknown demoChannel "/d" "weird" 4105 (by decide)
    (by decide)

/-- Witness for C9: the bucket directory, whose metadata carries
`st_ifmt`, is reported present. -/
theorem ExistsPath_iff_hasKey_witness :
    ExistsPath demoChannel "/iTunes_Control/Music/F00" = true :=
  (ExistsPath_iff_hasKey demoChannel "/iTunes_Control/Music/F00").mpr
    ⟨["st_ifmt", "S_IFDIR"], by decide, by decide⟩

/-- Witness for C10: a path that fails to list yields the empty
listing. -/
theorem ReadDirectory_failure_eq_empty_witness :
    ReadDirectory demoChannel "/nope" 4105 = [] :=
  (ReadDirectory_failure_eq_empty demoChannel "/nope" (by decide) 4105).1

end Afc
